import Mathlib

/-!
Verification of the failure/predicate-context tracking core of the MiniTest
unit-testing framework (`src/MiniTest.h`, `src/MiniTest.cpp`).

Modelling choices (following the design notes of the specification):
* the intrusive singly-linked predicate chain hanging off the root node is
  embedded as a `List PredicateContext` (root excluded, tail of the chain =
  last list element; `predicateStackTail_` is the last element, or the root
  when the list is empty);
* the raw pointers `messageTarget_ : Failure*` and
  `PredicateContext::failure_ : Failure*` are embedded as optional indices
  into the `failures_` sequence (a `std::deque` whose `push_back` never
  invalidates references, so an index is an exact model of the pointer);
* `printf` output is collected into a returned `String`.
-/

namespace MiniTest

/-- `class Failure` of `MiniTest.h`: one failure-report line item.
`file_ : const char*` may be null, hence `Option String`. -/
structure Failure where
  file : Option String
  line : Nat
  expr : String
  message : String
  nestingLevel : Nat
deriving DecidableEq

/-- `struct PredicateContext` of `MiniTest.h`, without the intrusive `next_`
pointer (the chain itself is a `List`); `failure_ : Failure*` becomes an
optional index into the failure sequence. -/
structure PredicateContext where
  id : Nat
  file : Option String
  line : Nat
  expr : Option String
  failure : Option Nat
deriving DecidableEq

/-- `class TestResult` of `MiniTest.h`.  Field defaults are the C++
in-class initialisers together with the `TestResult::TestResult()`
constructor (root node with id 0, empty chain). -/
structure TestResult where
  predicateId : Nat := 1
  chain : List PredicateContext := []
  failures : List Failure := []
  name : String := ""
  lastUsedPredicateId : Nat := 0
  messageTarget : Option Nat := none
deriving DecidableEq

/-- A freshly constructed `TestResult` (the C++ default constructor). -/
def TestResult.init : TestResult := {}

/-- `TestResult::setTestName`. -/
def TestResult.setTestName (r : TestResult) (name : String) : TestResult :=
  { r with name := name }

/-- The record built by `TestResult::addFailureInfo`: a null `expr`
leaves `expr_` as the default empty string, `message_` starts empty. -/
def mkFailure (file : Option String) (line : Nat) (expr : Option String)
    (nestingLevel : Nat) : Failure :=
  { file := file, line := line, expr := expr.getD "", message := "",
    nestingLevel := nestingLevel }

/-- Result of the chain walk inside `TestResult::addFailure`: the updated
chain (some nodes acquire a `failure_` back-reference), the updated
watermark, the grown failure sequence, and the final `nestingLevel`. -/
structure WalkResult where
  chain : List PredicateContext
  lastUsed : Nat
  failures : List Failure
  level : Nat
deriving DecidableEq

/-- The `for` loop of `TestResult::addFailure`: walk the predicate chain;
every node whose id exceeds the watermark is materialised into a `Failure`
(via `addFailureInfo`) at the current nesting level, the watermark is
advanced to its id and the node receives a back-reference to the new
record (`lastNode->failure_ = &failures_.back()`); `nestingLevel` is
incremented for every node visited. -/
def addFailureWalk : Nat → Nat → List Failure → List PredicateContext → WalkResult
  | lastUsed, level, fs, [] => ⟨[], lastUsed, fs, level⟩
  | lastUsed, level, fs, node :: rest =>
    if node.id > lastUsed then
      let fs2 := fs ++ [mkFailure node.file node.line node.expr level]
      let w := addFailureWalk node.id (level + 1) fs2 rest
      ⟨{ node with failure := some (fs2.length - 1) } :: w.chain,
        w.lastUsed, w.failures, w.level⟩
    else
      let w := addFailureWalk lastUsed (level + 1) fs rest
      ⟨node :: w.chain, w.lastUsed, w.failures, w.level⟩

/-- `TestResult::addFailure`: walk the chain materialising unreported
frames, then append one record for the failing expression itself and make
it the message target. -/
def TestResult.addFailure (r : TestResult) (file : Option String) (line : Nat)
    (expr : Option String) : TestResult :=
  let w := addFailureWalk r.lastUsedPredicateId 0 r.failures r.chain
  let fs2 := w.failures ++ [mkFailure file line expr w.level]
  { r with
    chain := w.chain,
    lastUsedPredicateId := w.lastUsed,
    failures := fs2,
    messageTarget := some (fs2.length - 1) }

/-- `TestResult::popPredicateContext`: locate the tail by walking from the
root; if the tail exists and carries a `failure_` back-reference, retarget
`messageTarget_` to it; then unlink the tail (the second-to-last node, or
the root, becomes `predicateStackTail_`).  On a root-only chain the walk
finds no tail and the state is unchanged. -/
def TestResult.popPredicateContext (r : TestResult) : TestResult :=
  match r.chain.getLast? with
  | none => r
  | some tail =>
    { r with
      chain := r.chain.dropLast,
      messageTarget :=
        match tail.failure with
        | some f => some f
        | none => r.messageTarget }

/-- `TestResult::failed`. -/
def TestResult.failed (r : TestResult) : Bool :=
  !r.failures.isEmpty

/-- Replace the element at index `i` (the model of writing through a
pointer into the `failures_` deque). -/
def modifyIdx {α : Type} (g : α → α) : Nat → List α → List α
  | _, [] => []
  | 0, x :: xs => g x :: xs
  | i + 1, x :: xs => x :: modifyIdx g i xs

/-- `TestResult::addToLastFailure`: `messageTarget_->message_ += message`
when a target exists, otherwise nothing happens. -/
def TestResult.addToLastFailure (r : TestResult) (message : String) : TestResult :=
  match r.messageTarget with
  | none => r
  | some i =>
    { r with failures :=
        modifyIdx (fun f => { f with message := f.message ++ message }) i r.failures }

/-- `TestResult::operator<<(int64_t)`: append `std::to_string(value)`. -/
def TestResult.streamInt64 (r : TestResult) (value : Int) : TestResult :=
  r.addToLastFailure (toString value)

/-- `TestResult::operator<<(uint64_t)`: append `std::to_string(value)`. -/
def TestResult.streamUInt64 (r : TestResult) (value : Nat) : TestResult :=
  r.addToLastFailure (toString value)

/-- `TestResult::operator<<(bool)`. -/
def TestResult.streamBool (r : TestResult) (value : Bool) : TestResult :=
  r.addToLastFailure (if value then "true" else "false")

/-- The generic `template <typename T> TestResult::operator<<` of
`MiniTest.h`: it streams the value into an `ostringstream` and appends the
resulting text.  The embedding receives that default text rendering of
the value as the `rendered` argument. -/
def TestResult.streamGeneric (r : TestResult) (rendered : String) : TestResult :=
  r.addToLastFailure rendered

/-- The `std::string indent(nestingLevel * 2, ' ')` of
`TestResult::printFailure`. -/
def mkIndent (nestingLevel : Nat) : String :=
  String.mk (List.replicate (nestingLevel * 2) ' ')

/-- Character-level rendition of the chunk loop of
`TestResult::indentText`: the loop emits `indent` before every line chunk,
where a chunk is a maximal run of characters ending in a newline (or at
the end of the text); equivalently, `indent` is emitted before the first
character and after every newline that is followed by at least one more
character. `atLineStart` records whether the previous character (if any)
was a newline. -/
def indentLinesGo (indent : List Char) : Bool → List Char → List Char
  | _, [] => []
  | atLineStart, c :: cs =>
    (if atLineStart then indent else []) ++ c :: indentLinesGo indent (c == '\n') cs

/-- `TestResult::indentText`. -/
def indentText (text indent : String) : String :=
  String.mk (indentLinesGo indent.data true text.data)

/-- The body of the `for` loop of `TestResult::printFailure`, for one
failure record: optional `file(line): ` header (indented), the expression
text or the bare newline, then the re-indented message. -/
def renderFailure (f : Failure) : String :=
  let indent := mkIndent f.nestingLevel
  (match f.file with
   | some file => indent ++ file ++ "(" ++ toString f.line ++ "): "
   | none => "") ++
  (if f.expr = "" then (if f.file.isSome then "\n" else "")
   else f.expr ++ "\n") ++
  (if f.message = "" then ""
   else indentText f.message (indent ++ "  ") ++ "\n")

/-- The `for (const auto& failure : failures_)` loop of
`TestResult::printFailure`, iterating the sequence front to back. -/
def printFailureLoop : List Failure → String
  | [] => ""
  | f :: fs => renderFailure f ++ printFailureLoop fs

/-- `TestResult::printFailure`: nothing on an empty sequence, otherwise an
optional per-test header followed by every record in sequence order. -/
def TestResult.printFailure (r : TestResult) (printTestName : Bool) : String :=
  if r.failures.isEmpty then ""
  else
    (if printTestName then "* Detail of " ++ r.name ++ " test failure:\n" else "") ++
    printFailureLoop r.failures

/-- The frame-push prologue of the `JSONTEST_ASSERT_PRED` macro of
`MiniTest.h`: link a fresh `PredicateContext` (id = `predicateId_`,
no `failure_` yet) as the new chain tail and bump `predicateId_`. -/
def TestResult.pushPredicateContext (r : TestResult) (file : Option String)
    (line : Nat) (expr : Option String) : TestResult :=
  { r with
    chain := r.chain ++
      [{ id := r.predicateId, file := file, line := line, expr := expr,
         failure := none }],
    predicateId := r.predicateId + 1 }

/-- Source data of one pushed predicate frame (`__FILE__`, `__LINE__`,
`#expr` of the macro). -/
structure FrameInfo where
  file : Option String
  line : Nat
  expr : Option String
deriving DecidableEq

/-- Push a sequence of predicate frames in order. -/
def pushAll (r : TestResult) : List FrameInfo → TestResult
  | [] => r
  | i :: rest => pushAll (r.pushPredicateContext i.file i.line i.expr) rest

/-- The failure records that materialising a whole chain of fresh frames
produces, starting at nesting level `level`. -/
def framesToFailures (level : Nat) : List FrameInfo → List Failure
  | [] => []
  | i :: rest => mkFailure i.file i.line i.expr level :: framesToFailures (level + 1) rest

/-- The chain nodes that pushing `infos` onto a fresh stack builds, with
ids `k, k+1, …`. -/
def framesFrom (k : Nat) : List FrameInfo → List PredicateContext
  | [] => []
  | i :: rest =>
    { id := k, file := i.file, line := i.line, expr := i.expr, failure := none } ::
      framesFrom (k + 1) rest

/-- All chain ids strictly increase along the list, starting strictly
above `bound`. -/
def idsAbove : Nat → List PredicateContext → Prop
  | _, [] => True
  | bound, n :: rest => bound < n.id ∧ idsAbove n.id rest

-- ////////////////////////////////////////////////////////////////////
-- Runner (modelled for the end-to-end claims)
-- ////////////////////////////////////////////////////////////////////

/-- One registered test: the factory's display name together with the
effect of `runTestCase` on the bound `TestResult`. -/
structure TestSpec where
  name : String
  body : TestResult → TestResult

/-- `class Runner`: the ordered factory collection. -/
structure Runner where
  tests : List TestSpec := []

/-- `Runner::add`. -/
def Runner.add (rn : Runner) (t : TestSpec) : Runner :=
  { rn with tests := rn.tests ++ [t] }

/-- `Runner::testCount`. -/
def Runner.testCount (rn : Runner) : Nat :=
  rn.tests.length

/-- `Runner::runTestAt` (exceptions disabled): set the test name, print
the progress line, run the body, print the status. -/
def Runner.runTestAt (t : TestSpec) (result : TestResult) : TestResult × String :=
  let r2 := t.body (result.setTestName t.name)
  (r2, "Testing " ++ t.name ++ ": " ++ (if r2.failed then "FAILED" else "OK") ++ "\n")

/-- `Runner::runAllTest`: run every test with a fresh `TestResult`,
collect the failing results in order; if none failed optionally print the
`All N tests passed` summary and return true, otherwise print each failing
result's detail (with the test-name header only when more than one test
ran) and the aggregate summary, returning false. -/
def Runner.runAllTest (rn : Runner) (printSummary : Bool) : Bool × String :=
  let count := rn.testCount
  let run := rn.tests.foldl
    (fun (acc : List TestResult × String) t =>
      let p := Runner.runTestAt t TestResult.init
      (if p.1.failed then acc.1 ++ [p.1] else acc.1, acc.2 ++ p.2))
    ([], "")
  if run.1.isEmpty then
    (true, run.2 ++ (if printSummary then "All " ++ toString count ++ " tests passed\n" else ""))
  else
    let detail := run.1.foldl (fun s res => s ++ res.printFailure (decide (1 < count))) ""
    let summary :=
      if printSummary then
        toString (count - run.1.length) ++ "/" ++ toString count ++
          " tests passed (" ++ toString run.1.length ++ " failure(s))\n"
      else ""
    (false, run.2 ++ detail ++ summary)

-- ////////////////////////////////////////////////////////////////////
-- Helper lemmas
-- ////////////////////////////////////////////////////////////////////

theorem string_join_cons (s : String) (l : List String) :
    String.join (s :: l) = s ++ String.join l := by
  apply String.ext
  simp [String.join_eq, String.data_append]

theorem modifyIdx_comp {α : Type} (g h : α → α) (i : Nat) (l : List α) :
    modifyIdx g i (modifyIdx h i l) = modifyIdx (fun x => g (h x)) i l := by
  induction l generalizing i with
  | nil => cases i <;> rfl
  | cons x xs ih =>
    cases i with
    | zero => rfl
    | succ n => simp [modifyIdx, ih]

/-- `addToLastFailure` when a message target exists: the targeted record's
message grows, nothing else changes. -/
theorem addToLastFailure_some (r : TestResult) (i : Nat) (s : String)
    (h : r.messageTarget = some i) :
    r.addToLastFailure s =
      { r with failures :=
          modifyIdx (fun f => { f with message := f.message ++ s }) i r.failures } := by
  simp [TestResult.addToLastFailure, h]

/-- `popPredicateContext` on a chain with at least one frame: the tail is
unlinked, and the message target is retargeted exactly when the tail
carries a `failure_` back-reference. -/
theorem pop_concat (r : TestResult) (pre : List PredicateContext)
    (tail : PredicateContext) (h : r.chain = pre ++ [tail]) :
    r.popPredicateContext =
      { r with
        chain := pre,
        messageTarget :=
          match tail.failure with
          | some f => some f
          | none => r.messageTarget } := by
  simp [TestResult.popPredicateContext, h, List.getLast?_concat, List.dropLast_concat]

-- ////////////////////////////////////////////////////////////////////
-- Claims C9, C10, C3, C7
-- ////////////////////////////////////////////////////////////////////

/-- Claim C9: calling `popPredicateContext` when the predicate chain holds
only the root node (no frame was ever pushed) leaves the whole
`TestResult` unchanged — the chain stays empty (tail = root), and the
message target, failure sequence and watermark are untouched. -/
theorem popPredicateContext_root_only_noop (r : TestResult) (h : r.chain = []) :
    r.popPredicateContext = r := by
  simp [TestResult.popPredicateContext, h]

theorem popPredicateContext_root_only_noop_witness :
    TestResult.init.popPredicateContext = TestResult.init :=
  popPredicateContext_root_only_noop TestResult.init rfl

/-- Claim C10: popping a tail frame whose `failure_` back-reference is
null removes the tail but leaves `messageTarget`, the failure sequence and
every other field exactly as they were. -/
theorem popPredicateContext_no_failure_keeps_target (r : TestResult)
    (pre : List PredicateContext) (tail : PredicateContext)
    (hc : r.chain = pre ++ [tail]) (hf : tail.failure = none) :
    r.popPredicateContext = { r with chain := pre } := by
  rw [pop_concat r pre tail hc]
  simp [hf]

/-- A one-frame chain whose tail never produced a failure record. -/
def tailFrameNoFailure : PredicateContext :=
  { id := 1, file := some "t.cpp", line := 3, expr := some "p(x)", failure := none }

def resultWithCleanTail : TestResult :=
  { chain := [tailFrameNoFailure] }

theorem popPredicateContext_no_failure_keeps_target_witness :
    resultWithCleanTail.popPredicateContext = { resultWithCleanTail with chain := [] } :=
  popPredicateContext_no_failure_keeps_target resultWithCleanTail [] tailFrameNoFailure rfl rfl

/-- Claim C3: when the chain tail carries a `failure_` back-reference
(a nested assertion failed inside it), `popPredicateContext` unlinks the
tail and retargets `messageTarget` to that tail's failure record, so a
subsequent `addToLastFailure` appends onto the ancestor frame's record
(index `i`), not onto whatever record was targeted before. -/
theorem popPredicateContext_retargets_messageTarget (r : TestResult)
    (pre : List PredicateContext) (tail : PredicateContext) (i : Nat) (s : String)
    (hc : r.chain = pre ++ [tail]) (hf : tail.failure = some i) :
    r.popPredicateContext.chain = pre ∧
    r.popPredicateContext.messageTarget = some i ∧
    r.popPredicateContext.failures = r.failures ∧
    (r.popPredicateContext.addToLastFailure s).failures =
      modifyIdx (fun f => { f with message := f.message ++ s }) i r.failures := by
  rw [pop_concat r pre tail hc]
  refine ⟨rfl, by simp [hf], rfl, ?_⟩
  rw [addToLastFailure_some _ i s (by simp [hf])]

/-- The chain of a test whose outer predicate frame was materialised as
failure record 0 by an inner failed assertion. -/
def tailFrameWithFailure : PredicateContext :=
  { id := 1, file := some "t.cpp", line := 3, expr := some "p(x)", failure := some 0 }

def resultAfterInnerFailure : TestResult :=
  { predicateId := 2,
    chain := [tailFrameWithFailure],
    failures :=
      [mkFailure (some "t.cpp") 3 (some "p(x)") 0,
       mkFailure (some "t.cpp") 7 (some "x == y") 1],
    lastUsedPredicateId := 1,
    messageTarget := some 1 }

theorem popPredicateContext_retargets_messageTarget_witness :
    resultAfterInnerFailure.popPredicateContext.chain = [] ∧
    resultAfterInnerFailure.popPredicateContext.messageTarget = some 0 ∧
    resultAfterInnerFailure.popPredicateContext.failures = resultAfterInnerFailure.failures ∧
    (resultAfterInnerFailure.popPredicateContext.addToLastFailure " note").failures =
      modifyIdx (fun f => { f with message := f.message ++ " note" }) 0
        resultAfterInnerFailure.failures :=
  popPredicateContext_retargets_messageTarget resultAfterInnerFailure []
    tailFrameWithFailure 0 " note" rfl rfl

/-- Claim C7: before any failure has set a message target,
`addToLastFailure` — and with it every `operator<<` overload — is a silent
no-op that changes no state at all; once a target exists it appends the
text to that record's message. -/
theorem addToLastFailure_no_target_noop (r : TestResult) (s rendered : String)
    (v : Int) (u : Nat) (b : Bool) :
    (r.messageTarget = none →
      r.addToLastFailure s = r ∧ r.streamInt64 v = r ∧ r.streamUInt64 u = r ∧
      r.streamBool b = r ∧ r.streamGeneric rendered = r) ∧
    (∀ i, r.messageTarget = some i →
      r.addToLastFailure s =
        { r with failures :=
            modifyIdx (fun f => { f with message := f.message ++ s }) i r.failures }) := by
  constructor
  · intro h
    refine ⟨?_, ?_, ?_, ?_, ?_⟩ <;>
      simp [TestResult.addToLastFailure, TestResult.streamInt64, TestResult.streamUInt64,
        TestResult.streamBool, TestResult.streamGeneric, h]
  · intro i h
    exact addToLastFailure_some r i s h

theorem addToLastFailure_no_target_noop_witness :
    TestResult.init.addToLastFailure "ignored" = TestResult.init :=
  ((addToLastFailure_no_target_noop TestResult.init "ignored" "x" 0 0 true).1 rfl).1

-- ////////////////////////////////////////////////////////////////////
-- Walk lemmas (watermark behaviour of the addFailure chain walk)
-- ////////////////////////////////////////////////////////////////////

/-- The walk never lowers the watermark. -/
theorem walk_lastUsed_le (chain : List PredicateContext) :
    ∀ (lu lvl : Nat) (fs : List Failure),
      lu ≤ (addFailureWalk lu lvl fs chain).lastUsed := by
  induction chain with
  | nil => intro lu lvl fs; simp [addFailureWalk]
  | cons node rest ih =>
    intro lu lvl fs
    simp only [addFailureWalk]
    split
    · next h => exact le_trans (le_of_lt h) (ih node.id (lvl + 1) _)
    · exact ih lu (lvl + 1) fs

/-- After the walk, the watermark dominates the id of every chain node. -/
theorem walk_mem_le (chain : List PredicateContext) :
    ∀ (lu lvl : Nat) (fs : List Failure) (n : PredicateContext), n ∈ chain →
      n.id ≤ (addFailureWalk lu lvl fs chain).lastUsed := by
  induction chain with
  | nil => intro lu lvl fs n hn; cases hn
  | cons node rest ih =>
    intro lu lvl fs n hn
    simp only [addFailureWalk]
    rcases List.mem_cons.mp hn with h | h
    · subst h
      split
      · next hgt => exact walk_lastUsed_le rest n.id (lvl + 1) _
      · next hle => exact le_trans (Nat.le_of_not_lt hle) (walk_lastUsed_le rest lu (lvl + 1) fs)
    · split
      · exact ih _ _ _ n h
      · exact ih _ _ _ n h

/-- The walk only attaches back-references: the sequence of node ids along
the chain is unchanged. -/
theorem walk_map_id (chain : List PredicateContext) :
    ∀ (lu lvl : Nat) (fs : List Failure),
      (addFailureWalk lu lvl fs chain).chain.map PredicateContext.id =
        chain.map PredicateContext.id := by
  induction chain with
  | nil => intro lu lvl fs; simp [addFailureWalk]
  | cons node rest ih =>
    intro lu lvl fs
    simp only [addFailureWalk]
    split
    · simp [ih]
    · simp [ih]

/-- The walk preserves the chain length. -/
theorem walk_chain_length (chain : List PredicateContext) (lu lvl : Nat)
    (fs : List Failure) :
    (addFailureWalk lu lvl fs chain).chain.length = chain.length := by
  have h := congrArg List.length (walk_map_id chain lu lvl fs)
  simpa using h

/-- A walk over a chain whose every id is at or below the watermark
materialises nothing: it only counts the nesting levels. -/
theorem walk_skip_all (chain : List PredicateContext) :
    ∀ (lu lvl : Nat) (fs : List Failure), (∀ n ∈ chain, n.id ≤ lu) →
      addFailureWalk lu lvl fs chain = ⟨chain, lu, fs, lvl + chain.length⟩ := by
  induction chain with
  | nil => intro lu lvl fs _; simp [addFailureWalk]
  | cons node rest ih =>
    intro lu lvl fs h
    have hnode : ¬node.id > lu := Nat.not_lt.mpr (h node (List.mem_cons_self node rest))
    have hrest : ∀ n ∈ rest, n.id ≤ lu := fun n hn => h n (List.mem_cons_of_mem node hn)
    simp only [addFailureWalk, if_neg hnode, ih lu (lvl + 1) fs hrest]
    simp [Nat.add_comm, Nat.add_left_comm]

/-- The watermark after a walk is either untouched or equal to the id of
some chain node whose id strictly exceeded the old watermark. -/
theorem walk_lastUsed_cases (chain : List PredicateContext) :
    ∀ (lu lvl : Nat) (fs : List Failure),
      (addFailureWalk lu lvl fs chain).lastUsed = lu ∨
      ∃ n, n ∈ chain ∧ (addFailureWalk lu lvl fs chain).lastUsed = n.id ∧ lu < n.id := by
  induction chain with
  | nil => intro lu lvl fs; left; simp [addFailureWalk]
  | cons node rest ih =>
    intro lu lvl fs
    simp only [addFailureWalk]
    split
    · next hgt =>
      rcases ih node.id (lvl + 1)
          (fs ++ [mkFailure node.file node.line node.expr lvl]) with h | ⟨n, hn, he, hlt⟩
      · right
        exact ⟨node, List.mem_cons_self node rest, h, hgt⟩
      · right
        exact ⟨n, List.mem_cons_of_mem node hn, he, lt_trans hgt hlt⟩
    · rcases ih lu (lvl + 1) fs with h | ⟨n, hn, he, hlt⟩
      · left; exact h
      · right; exact ⟨n, List.mem_cons_of_mem node hn, he, hlt⟩

/-- Claim C2: a second `addFailure` inside the same still-active predicate
chain duplicates no ancestry record — after the first call raised the
watermark past every frame id, the second call appends exactly one record
(the failing expression itself, at nesting level = chain depth) and none
for the ancestor frames. -/
theorem addFailure_twice_no_duplicate_ancestors (r : TestResult)
    (f1 : Option String) (l1 : Nat) (e1 : Option String)
    (f2 : Option String) (l2 : Nat) (e2 : Option String) :
    ((r.addFailure f1 l1 e1).addFailure f2 l2 e2).failures =
      (r.addFailure f1 l1 e1).failures ++ [mkFailure f2 l2 e2 r.chain.length] := by
  have hskip : ∀ n ∈ (addFailureWalk r.lastUsedPredicateId 0 r.failures r.chain).chain,
      n.id ≤ (addFailureWalk r.lastUsedPredicateId 0 r.failures r.chain).lastUsed := by
    intro n hn
    have hmem : n.id ∈ r.chain.map PredicateContext.id := by
      rw [← walk_map_id r.chain r.lastUsedPredicateId 0 r.failures]
      exact List.mem_map_of_mem PredicateContext.id hn
    rcases List.mem_map.mp hmem with ⟨m, hm, hid⟩
    rw [← hid]
    exact walk_mem_le r.chain _ _ _ m hm
  simp only [TestResult.addFailure]
  rw [walk_skip_all _ _ _ _ hskip]
  simp [walk_chain_length]

/-- Claim C6: across every `TestResult` operation the
`lastUsedPredicateId` watermark never decreases — `addFailure` either
leaves it unchanged or raises it to the strictly larger id of a frame on
the current chain, and every other operation leaves it untouched. -/
theorem lastUsedPredicateId_monotone (r : TestResult) (file : Option String)
    (line : Nat) (expr : Option String) (s : String) (v : Int) (u : Nat) (b : Bool) :
    (r.lastUsedPredicateId ≤ (r.addFailure file line expr).lastUsedPredicateId ∧
      ((r.addFailure file line expr).lastUsedPredicateId = r.lastUsedPredicateId ∨
        ∃ n, n ∈ r.chain ∧
          (r.addFailure file line expr).lastUsedPredicateId = n.id ∧
          r.lastUsedPredicateId < n.id)) ∧
    r.popPredicateContext.lastUsedPredicateId = r.lastUsedPredicateId ∧
    (r.pushPredicateContext file line expr).lastUsedPredicateId = r.lastUsedPredicateId ∧
    (r.addToLastFailure s).lastUsedPredicateId = r.lastUsedPredicateId ∧
    (r.streamInt64 v).lastUsedPredicateId = r.lastUsedPredicateId ∧
    (r.streamUInt64 u).lastUsedPredicateId = r.lastUsedPredicateId ∧
    (r.streamBool b).lastUsedPredicateId = r.lastUsedPredicateId ∧
    (r.streamGeneric s).lastUsedPredicateId = r.lastUsedPredicateId ∧
    (r.setTestName s).lastUsedPredicateId = r.lastUsedPredicateId := by
  refine ⟨⟨?_, ?_⟩, ?_, rfl, ?_, ?_, ?_, ?_, ?_, rfl⟩
  · simpa [TestResult.addFailure] using
      walk_lastUsed_le r.chain r.lastUsedPredicateId 0 r.failures
  · simpa [TestResult.addFailure] using
      walk_lastUsed_cases r.chain r.lastUsedPredicateId 0 r.failures
  · unfold TestResult.popPredicateContext
    cases r.chain.getLast? with
    | none => rfl
    | some tail => rfl
  all_goals
    simp only [TestResult.streamInt64, TestResult.streamUInt64, TestResult.streamBool,
      TestResult.streamGeneric, TestResult.addToLastFailure]
    cases r.messageTarget with
    | none => rfl
    | some i => rfl

-- ////////////////////////////////////////////////////////////////////
-- Fresh-chain materialisation (claim C1)
-- ////////////////////////////////////////////////////////////////////

/-- Walking a chain of frames whose ids run `k, k+1, …`, all above the
watermark, materialises every frame in chain order at consecutive nesting
levels, and ends at level `lvl + length`. -/
theorem walk_framesFrom (infos : List FrameInfo) :
    ∀ (k lu lvl : Nat) (fs : List Failure), lu < k →
      (addFailureWalk lu lvl fs (framesFrom k infos)).failures =
          fs ++ framesToFailures lvl infos ∧
      (addFailureWalk lu lvl fs (framesFrom k infos)).level = lvl + infos.length := by
  induction infos with
  | nil =>
    intro k lu lvl fs _
    simp [framesFrom, framesToFailures, addFailureWalk]
  | cons i rest ih =>
    intro k lu lvl fs h
    obtain ⟨ih1, ih2⟩ := ih (k + 1) k (lvl + 1)
      (fs ++ [mkFailure i.file i.line i.expr lvl]) (Nat.lt_succ_self k)
    simp only [framesFrom, addFailureWalk]
    rw [if_pos h]
    constructor
    · simp only [ih1, framesToFailures, List.append_assoc, List.singleton_append]
    · simp only [ih2, List.length_cons]
      omega

/-- Pushing a frame sequence appends the corresponding nodes, with ids
taken from the running `predicateId` counter. -/
theorem pushAll_eq (infos : List FrameInfo) :
    ∀ r : TestResult,
      pushAll r infos =
        { r with
          chain := r.chain ++ framesFrom r.predicateId infos,
          predicateId := r.predicateId + infos.length } := by
  induction infos with
  | nil =>
    intro r
    simp [pushAll, framesFrom]
  | cons i rest ih =>
    intro r
    simp only [pushAll]
    rw [ih]
    cases r
    simp [TestResult.pushPredicateContext, framesFrom, List.append_assoc]
    omega

/-- The nesting levels stored along a freshly materialised chain are
consecutive, starting at `lvl`. -/
theorem framesToFailures_map (infos : List FrameInfo) :
    ∀ lvl : Nat,
      (framesToFailures lvl infos).map Failure.nestingLevel =
        (List.range infos.length).map (fun j => lvl + j) := by
  induction infos with
  | nil => intro lvl; simp [framesToFailures]
  | cons i rest ih =>
    intro lvl
    simp only [framesToFailures, List.map_cons, List.length_cons]
    rw [List.range_succ_eq_map]
    simp only [List.map_cons, List.map_map, Nat.add_zero, mkFailure, ih (lvl + 1)]
    congr 1
    apply List.map_congr_left
    intro a _
    simp only [Function.comp_apply]
    omega

/-- Claim C1: starting from a fresh `TestResult`, pushing a predicate
frame chain of depth `D = infos.length` and letting only the innermost
assertion fail produces, in the single `addFailure` call, exactly `D + 1`
failure records — one per ancestor frame in chain order followed by one
for the failing expression — carrying nesting levels `0, 1, …, D`. -/
theorem addFailure_depth_chain_records (infos : List FrameInfo)
    (file : Option String) (line : Nat) (expr : Option String) :
    ((pushAll TestResult.init infos).addFailure file line expr).failures =
      framesToFailures 0 infos ++ [mkFailure file line expr infos.length] ∧
    ((pushAll TestResult.init infos).addFailure file line expr).failures.map
        Failure.nestingLevel = List.range (infos.length + 1) := by
  have hpush := pushAll_eq infos TestResult.init
  have hchain : (pushAll TestResult.init infos).chain = framesFrom 1 infos := by
    rw [hpush]; rfl
  have hlast : (pushAll TestResult.init infos).lastUsedPredicateId = 0 := by
    rw [hpush]; rfl
  have hfs : (pushAll TestResult.init infos).failures = [] := by
    rw [hpush]; rfl
  obtain ⟨hw1, hw2⟩ :=
    walk_framesFrom infos 1 0 0 ([] : List Failure) Nat.zero_lt_one
  have hmain :
      ((pushAll TestResult.init infos).addFailure file line expr).failures =
        framesToFailures 0 infos ++ [mkFailure file line expr infos.length] := by
    simp only [TestResult.addFailure, hchain, hlast, hfs, hw1, hw2]
    simp
  refine ⟨hmain, ?_⟩
  rw [hmain]
  rw [List.range_succ]
  simp only [List.map_append, framesToFailures_map infos 0, List.map_cons, List.map_nil,
    mkFailure]
  simp [Nat.zero_add]

/-- Claim C5: with a message target set, chaining the 64-bit integer, the
boolean and the generic streamable overloads appends the decimal
rendering, `"true"`/`"false"`, and the value's default text rendering
respectively, concatenated in call order onto the target record's
message. -/
theorem stream_operators_append_in_order (r : TestResult) (i : Nat)
    (v : Int) (u : Nat) (b : Bool) (s : String)
    (h : r.messageTarget = some i) :
    ((((r.streamInt64 v).streamUInt64 u).streamBool b).streamGeneric s).failures =
      modifyIdx
        (fun f =>
          { f with message :=
              f.message ++ toString v ++ toString u ++
                (if b then "true" else "false") ++ s })
        i r.failures := by
  simp only [TestResult.streamInt64, TestResult.streamUInt64, TestResult.streamBool,
    TestResult.streamGeneric, TestResult.addToLastFailure, h]
  simp only [modifyIdx_comp]

def resultOneFailure : TestResult :=
  { failures := [mkFailure (some "f.cpp") 5 (some "x == y") 0],
    messageTarget := some 0 }

theorem stream_operators_append_in_order_witness :
    ((((resultOneFailure.streamInt64 (-3)).streamUInt64 7).streamBool true).streamGeneric
        " done").failures =
      modifyIdx
        (fun f =>
          { f with message :=
              f.message ++ toString (-3 : Int) ++ toString (7 : Nat) ++
                (if true then "true" else "false") ++ " done" })
        0 resultOneFailure.failures :=
  stream_operators_append_in_order resultOneFailure 0 (-3) 7 true " done" rfl

-- ////////////////////////////////////////////////////////////////////
-- Failure printing (claim C4)
-- ////////////////////////////////////////////////////////////////////

/-- The printing loop concatenates the per-record renderings in sequence
order. -/
theorem printFailureLoop_eq_join (fs : List Failure) :
    printFailureLoop fs = String.join (fs.map renderFailure) := by
  induction fs with
  | nil => rfl
  | cons f rest ih =>
    simp only [printFailureLoop, List.map_cons, string_join_cons, ih]

/-- Two one-line records at nesting level 0. -/
def recA : Failure :=
  { file := none, line := 0, expr := "A", message := "", nestingLevel := 0 }

def recB : Failure :=
  { file := none, line := 0, expr := "B", message := "", nestingLevel := 0 }

/-- Claim C4: for a non-empty failure sequence `printFailure` renders the
records in insertion (discovery) order — the output is the in-order
concatenation of the per-record renderings, and swapping two records
changes the output, so the stale in-code comment about reverse-order
printing does not describe the behaviour — and a record with a source
location is indented by exactly `2 * nestingLevel` spaces. -/
theorem printFailure_insertion_order (r : TestResult) (b : Bool)
    (h : r.failures ≠ []) :
    r.printFailure b =
      (if b then "* Detail of " ++ r.name ++ " test failure:
" else "") ++
        String.join (r.failures.map renderFailure) ∧
    (∀ f ∈ r.failures, ∀ fl, f.file = some fl →
      ∃ rest, renderFailure f = mkIndent f.nestingLevel ++ rest) ∧
    printFailureLoop [recA, recB] ≠ printFailureLoop [recB, recA] := by
  refine ⟨?_, ?_, by decide⟩
  · rw [TestResult.printFailure, if_neg (by simpa using h)]
    rw [printFailureLoop_eq_join]
  · intro f _ fl hfl
    refine ⟨fl ++ "(" ++ toString f.line ++ "): " ++
      ((if f.expr = "" then "\n" else f.expr ++ "\n") ++
        (if f.message = "" then ""
         else indentText f.message (mkIndent f.nestingLevel ++ "  ") ++ "\n")), ?_⟩
    simp only [renderFailure, hfl, Option.isSome_some, if_true]
    simp [String.append_assoc]

def resultWithRecA : TestResult := { failures := [recA] }

theorem printFailure_insertion_order_witness :
    (resultWithRecA.printFailure false =
      (if false then "* Detail of " ++ resultWithRecA.name ++ " test failure:
"
       else "") ++ String.join (resultWithRecA.failures.map renderFailure) ∧
    (∀ f ∈ resultWithRecA.failures, ∀ fl, f.file = some fl →
      ∃ rest, renderFailure f = mkIndent f.nestingLevel ++ rest) ∧
    printFailureLoop [recA, recB] ≠ printFailureLoop [recB, recA]) :=
  printFailure_insertion_order resultWithRecA false (by decide)

/-- Claim C8: a `Runner` with no registered factories reports
`All 0 tests passed` and `runAllTest true` returns true. -/
theorem runAllTest_zero_tests :
    Runner.runAllTest { tests := [] } true = (true, "All 0 tests passed\n") := by
  rfl

end MiniTest
